import Mathlib

/-!
# Verification of the bingo-board-maker core

A shallow embedding of the core of the `bingo-board-maker` repository:

* `src/utils/sanitization.js` — text sanitizer and upload rate limiter;
* `src/utils/boardGenerator.js` — board generation (shuffle, first-pass
  category selection, backfill loop, tile placement) and its validation;
* the comprehensive validation utilities (`validatePromptsStructure`) and the
  upload pipeline `handleFileUpload` (sanitize → validate → generate).

JavaScript strings are modelled as `List Char` (`JStr`).  JavaScript's
`Math.floor(Math.random() * n)`, which yields a uniformly random integer in
`[0, n-1]`, is modelled by drawing the next value from an arbitrary stream of
naturals and reducing it modulo `n`; quantifying over all streams covers every
sequence of random draws the program can see.  The `while` loop of the board
generator is given explicit fuel, with `none` meaning the loop has not
finished within the given number of iterations.
-/

abbrev JStr := List Char

/-! ## Sanitizer (`src/utils/sanitization.js`) -/

/-- JavaScript whitespace, as matched by `String.prototype.trim` and `\s`. -/
def isJsWs (c : Char) : Bool :=
  c == ' ' || c == '\t' || c == '\n' || c == '\r' ||
  c == Char.ofNat 0x0B || c == Char.ofNat 0x0C ||
  c == Char.ofNat 0xA0 || c == Char.ofNat 0x1680 ||
  (0x2000 ≤ c.toNat && c.toNat ≤ 0x200A) ||
  c == Char.ofNat 0x2028 || c == Char.ofNat 0x2029 ||
  c == Char.ofNat 0x202F || c == Char.ofNat 0x205F ||
  c == Char.ofNat 0x3000 || c == Char.ofNat 0xFEFF

/-- `text.trim()`. -/
def jsTrim (l : JStr) : JStr :=
  ((l.dropWhile isJsWs).reverse.dropWhile isJsWs).reverse

/-- `.replace(/</g, '&lt;')`, applied characterwise. -/
def escLt (c : Char) : JStr :=
  if c = '<' then "&lt;".toList else [c]

/-- `.replace(/>/g, '&gt;')`, applied characterwise. -/
def escGt (c : Char) : JStr :=
  if c = '>' then "&gt;".toList else [c]

/-- The switch in `.replace(/[<>'"&]/g, ...)` of `sanitizeText`. -/
def escReserved (c : Char) : JStr :=
  if c = '<' then "&lt;".toList
  else if c = '>' then "&gt;".toList
  else if c = Char.ofNat 34 then "&quot;".toList
  else if c = Char.ofNat 39 then "&#x27;".toList
  else if c = '&' then "&amp;".toList
  else [c]

/-- Control characters removed by `.replace(/[\x00-\x08\x0B\x0C\x0E-\x1F\x7F]/g, '')`. -/
def isCtlChar (c : Char) : Bool :=
  c.toNat ≤ 0x08 || c.toNat == 0x0B || c.toNat == 0x0C ||
  (0x0E ≤ c.toNat && c.toNat ≤ 0x1F) || c.toNat == 0x7F

/-- The emoji code-point ranges of the emoji-stripping regex. -/
def isEmojiChar (c : Char) : Bool :=
  (0x1F600 ≤ c.toNat && c.toNat ≤ 0x1F64F) ||
  (0x1F300 ≤ c.toNat && c.toNat ≤ 0x1F5FF) ||
  (0x1F680 ≤ c.toNat && c.toNat ≤ 0x1F6FF) ||
  (0x1F1E0 ≤ c.toNat && c.toNat ≤ 0x1F1FF) ||
  (0x2600 ≤ c.toNat && c.toNat ≤ 0x26FF) ||
  (0x2700 ≤ c.toNat && c.toNat ≤ 0x27BF)

/-- The markdown-like characters removed by `.replace(/[*_`~]/g, '')`. -/
def isFormattingChar (c : Char) : Bool :=
  c == '*' || c == '_' || c == Char.ofNat 0x60 || c == '~'

/-- Helper for `collapseWs`: `insideRun` records whether the previous
character was whitespace (in which case further whitespace is dropped). -/
def collapseWsAux : Bool → JStr → JStr
  | _, [] => []
  | insideRun, c :: rest =>
    if isJsWs c then
      if insideRun then collapseWsAux true rest
      else ' ' :: collapseWsAux true rest
    else c :: collapseWsAux false rest

/-- `.replace(/\s+/g, ' ')`: each maximal whitespace run becomes one space. -/
def collapseWs (l : JStr) : JStr := collapseWsAux false l

/-- `sanitized.lastIndexOf(' ')` (`-1` when there is no space). -/
def lastSpaceIdx (l : JStr) : Int :=
  match l.reverse.findIdx? (fun c => c == ' ') with
  | some k => ((l.length - 1 - k : Nat) : Int)
  | none => -1

/-- The options object of `sanitizeText`, with its default values. -/
structure SanOpts where
  maxLength : Nat := 200
  allowEmojis : Bool := true
  allowBasicFormatting : Bool := false
  trimWhitespace : Bool := true

/-- The length-limiting step of `sanitizeText`.  The float comparison
`lastSpace > maxLength * 0.8` is modelled exactly as the rational comparison
`5 * lastSpace > 4 * maxLength`. -/
def truncateToMax (s : JStr) (maxLength : Nat) : JStr :=
  if maxLength < s.length then
    if 5 * lastSpaceIdx (jsTrim (s.take maxLength)) > 4 * (maxLength : Int) then
      (jsTrim (s.take maxLength)).take (lastSpaceIdx (jsTrim (s.take maxLength))).toNat
    else jsTrim (s.take maxLength)
  else s

/-- `sanitizeText(text, options)`: trim, escape `<` and `>`, escape the five
reserved characters, strip control characters, optionally strip emojis and
formatting punctuation, truncate to `maxLength`, collapse whitespace runs. -/
def sanitizeText (text : JStr) (options : SanOpts) : JStr :=
  let s1 := if options.trimWhitespace then jsTrim text else text
  let s2 := (s1.flatMap escLt).flatMap escGt
  let s3 := s2.flatMap escReserved
  let s4 := s3.filter (fun c => !isCtlChar c)
  let s5 := if options.allowEmojis then s4 else s4.filter (fun c => !isEmojiChar c)
  let s6 := if options.allowBasicFormatting then s5 else s5.filter (fun c => !isFormattingChar c)
  let s7 := truncateToMax s6 options.maxLength
  collapseWs s7

/-- `sanitizeCategoryName(category)`. -/
def sanitizeCategoryName (category : JStr) : JStr :=
  sanitizeText category
    { maxLength := 50, allowEmojis := true, allowBasicFormatting := false,
      trimWhitespace := true }

/-- `sanitizePromptText(prompt)`. -/
def sanitizePromptText (prompt : JStr) : JStr :=
  sanitizeText prompt
    { maxLength := 200, allowEmojis := true, allowBasicFormatting := false,
      trimWhitespace := true }

/-! ## Rate limiter (`class RateLimiter`)

Timestamps are integers (`Date.now()` values). -/

structure RateLimiter where
  maxAttempts : Nat
  timeWindow : Int
  attempts : List Int
deriving DecidableEq

/-- `canAttempt()`: prunes attempts outside the time window (a state change!)
and returns whether the remaining count is below the maximum.  `now` stands
for `Date.now()`. -/
def RateLimiter.canAttempt (rl : RateLimiter) (now : Int) : Bool × RateLimiter :=
  let pruned := rl.attempts.filter (fun time => now - time < rl.timeWindow)
  (decide (pruned.length < rl.maxAttempts), { rl with attempts := pruned })

/-- `recordAttempt()`. -/
def RateLimiter.recordAttempt (rl : RateLimiter) (now : Int) : RateLimiter :=
  { rl with attempts := rl.attempts ++ [now] }

/-! ### Sanitizer lemmas -/

theorem escLt_no_lt (c : Char) : '<' ∉ escLt c := by
  unfold escLt
  split
  next => decide
  next hc => simp only [List.mem_singleton]; exact fun h => hc h.symm

theorem escGt_no_gt (c : Char) : '>' ∉ escGt c := by
  unfold escGt
  split
  next => decide
  next hc => simp only [List.mem_singleton]; exact fun h => hc h.symm

theorem escGt_no_lt {c : Char} (hc : c ≠ '<') : '<' ∉ escGt c := by
  unfold escGt
  split
  next => decide
  next => simp only [List.mem_singleton]; exact fun h => hc h.symm

theorem escReserved_no_lt {c : Char} (hc : c ≠ '<') : '<' ∉ escReserved c := by
  unfold escReserved
  repeat' split
  all_goals first
    | decide
    | (simp only [List.mem_singleton]; exact fun h => hc h.symm)

theorem escReserved_no_gt {c : Char} (hc : c ≠ '>') : '>' ∉ escReserved c := by
  unfold escReserved
  repeat' split
  all_goals first
    | decide
    | (simp only [List.mem_singleton]; exact fun h => hc h.symm)

theorem not_mem_flatMap {l : JStr} {f : Char → JStr} {d : Char}
    (h : ∀ c ∈ l, d ∉ f c) : d ∉ l.flatMap f := by
  intro hm
  rcases List.mem_flatMap.mp hm with ⟨c, hc, hd⟩
  exact h c hc hd

theorem no_lt_after_escLt (l : JStr) : '<' ∉ l.flatMap escLt :=
  not_mem_flatMap fun c _ => escLt_no_lt c

theorem no_lt_after_escGt (l : JStr) : '<' ∉ (l.flatMap escLt).flatMap escGt := by
  apply not_mem_flatMap
  intro c hc
  exact escGt_no_lt fun h => no_lt_after_escLt l (h ▸ hc)

theorem no_gt_after_escGt (l : JStr) : '>' ∉ (l.flatMap escLt).flatMap escGt :=
  not_mem_flatMap fun c _ => escGt_no_gt c

theorem no_lt_after_escReserved {l : JStr} (h : '<' ∉ l) : '<' ∉ l.flatMap escReserved := by
  apply not_mem_flatMap
  intro c hc
  exact escReserved_no_lt fun he => h (he ▸ hc)

theorem no_gt_after_escReserved {l : JStr} (h : '>' ∉ l) : '>' ∉ l.flatMap escReserved := by
  apply not_mem_flatMap
  intro c hc
  exact escReserved_no_gt fun he => h (he ▸ hc)

theorem mem_if_filter {P : Prop} [Decidable P] {l : JStr} {p : Char → Bool} {c : Char}
    (h : c ∈ if P then l else l.filter p) : c ∈ l := by
  split at h
  · exact h
  · exact List.mem_of_mem_filter h

theorem mem_jsTrim {l : JStr} {c : Char} (h : c ∈ jsTrim l) : c ∈ l := by
  unfold jsTrim at h
  rw [List.mem_reverse] at h
  have h2 := (List.dropWhile_sublist isJsWs).subset h
  rw [List.mem_reverse] at h2
  exact (List.dropWhile_sublist isJsWs).subset h2

theorem mem_truncateToMax {s : JStr} {m : Nat} {c : Char}
    (h : c ∈ truncateToMax s m) : c ∈ s := by
  unfold truncateToMax at h
  split at h
  · split at h
    · exact List.mem_of_mem_take (mem_jsTrim (List.mem_of_mem_take h))
    · exact List.mem_of_mem_take (mem_jsTrim h)
  · exact h

theorem mem_collapseWsAux {b : Bool} {l : JStr} {c : Char}
    (h : c ∈ collapseWsAux b l) : c = ' ' ∨ c ∈ l := by
  induction l generalizing b with
  | nil => simp [collapseWsAux] at h
  | cons d rest ih =>
    unfold collapseWsAux at h
    split at h
    · split at h
      · rcases ih h with h1 | h1
        · exact Or.inl h1
        · exact Or.inr (List.mem_cons_of_mem d h1)
      · rcases List.mem_cons.mp h with h1 | h1
        · exact Or.inl h1
        · rcases ih h1 with h2 | h2
          · exact Or.inl h2
          · exact Or.inr (List.mem_cons_of_mem d h2)
    · rcases List.mem_cons.mp h with h1 | h1
      · exact Or.inr (h1 ▸ List.mem_cons_self d rest)
      · rcases ih h1 with h2 | h2
        · exact Or.inl h2
        · exact Or.inr (List.mem_cons_of_mem d h2)

theorem length_collapseWsAux (b : Bool) (l : JStr) :
    (collapseWsAux b l).length ≤ l.length := by
  induction l generalizing b with
  | nil => simp [collapseWsAux]
  | cons d rest ih =>
    unfold collapseWsAux
    split
    · split
      · exact Nat.le_succ_of_le (ih true)
      · simpa using Nat.succ_le_succ (ih true)
    · simpa using Nat.succ_le_succ (ih false)

theorem length_jsTrim (l : JStr) : (jsTrim l).length ≤ l.length := by
  unfold jsTrim
  have h1 := (List.dropWhile_sublist (l := l) isJsWs).length_le
  have h2 := (List.dropWhile_sublist (l := (l.dropWhile isJsWs).reverse) isJsWs).length_le
  simp only [List.length_reverse] at h2 ⊢
  omega

theorem length_truncateToMax (s : JStr) (m : Nat) : (truncateToMax s m).length ≤ m := by
  unfold truncateToMax
  split
  next hlt =>
    have ht : (jsTrim (s.take m)).length ≤ m := by
      have := length_jsTrim (s.take m)
      simp only [List.length_take] at this
      omega
    split
    · have h2 : ((jsTrim (s.take m)).take (lastSpaceIdx (jsTrim (s.take m))).toNat).length
          ≤ (jsTrim (s.take m)).length := by
        rw [List.length_take]; omega
      omega
    · exact ht
  next hge => omega

theorem all_ws_of_jsTrim_eq_nil {l : JStr} (h : jsTrim l = []) : ∀ c ∈ l, isJsWs c := by
  unfold jsTrim at h
  rw [List.reverse_eq_nil_iff, List.dropWhile_eq_nil_iff] at h
  intro c hc
  rw [← List.takeWhile_append_dropWhile (p := isJsWs) (l := l)] at hc
  rcases List.mem_append.mp hc with h1 | h1
  · exact List.mem_takeWhile_imp h1
  · exact h c (List.mem_reverse.mpr h1)

theorem length_collapseWsAux_all_ws {b : Bool} {l : JStr}
    (h : ∀ c ∈ collapseWsAux b l, isJsWs c) :
    (collapseWsAux b l).length ≤ if b then 0 else 1 := by
  induction l generalizing b with
  | nil => cases b <;> simp [collapseWsAux]
  | cons d rest ih =>
    by_cases hws : isJsWs d
    · cases b with
      | true =>
        have hstep : collapseWsAux true (d :: rest) = collapseWsAux true rest := by
          simp [collapseWsAux, hws]
        rw [hstep] at h ⊢
        exact ih (b := true) h
      | false =>
        have hstep : collapseWsAux false (d :: rest) = ' ' :: collapseWsAux true rest := by
          simp [collapseWsAux, hws]
        rw [hstep] at h ⊢
        have h2 : ∀ c ∈ collapseWsAux true rest, isJsWs c :=
          fun c hc => h c (List.mem_cons_of_mem _ hc)
        have h3 := ih (b := true) h2
        simpa using h3
    · have hstep : collapseWsAux b (d :: rest) = d :: collapseWsAux false rest := by
        cases b <;> simp [collapseWsAux, hws]
      rw [hstep] at h
      exact absurd (h d (List.mem_cons_self d _)) hws

theorem jsTrim_sanitizeText_ne_nil {t : JStr} {o : SanOpts}
    (h3 : 3 ≤ (sanitizeText t o).length) : jsTrim (sanitizeText t o) ≠ [] := by
  intro hnil
  have hws := all_ws_of_jsTrim_eq_nil hnil
  have hle : (sanitizeText t o).length ≤ if false then 0 else 1 :=
    length_collapseWsAux_all_ws (b := false) hws
  simp only [Bool.false_eq_true, if_false] at hle
  omega

theorem sanitizeText_no_lt (text : JStr) (options : SanOpts) :
    '<' ∉ sanitizeText text options := by
  show '<' ∉ collapseWs (truncateToMax _ options.maxLength)
  intro hm
  rcases mem_collapseWsAux hm with h | h
  · exact absurd h (by decide)
  · have h6 := mem_truncateToMax h
    have h5 := mem_if_filter h6
    have h4 := mem_if_filter h5
    have h3 := List.mem_of_mem_filter h4
    exact no_lt_after_escReserved (no_lt_after_escGt _) h3

theorem sanitizeText_no_gt (text : JStr) (options : SanOpts) :
    '>' ∉ sanitizeText text options := by
  show '>' ∉ collapseWs (truncateToMax _ options.maxLength)
  intro hm
  rcases mem_collapseWsAux hm with h | h
  · exact absurd h (by decide)
  · have h6 := mem_truncateToMax h
    have h5 := mem_if_filter h6
    have h4 := mem_if_filter h5
    have h3 := List.mem_of_mem_filter h4
    exact no_gt_after_escReserved (no_gt_after_escGt _) h3

theorem sanitizeText_length_le (text : JStr) (options : SanOpts) :
    (sanitizeText text options).length ≤ options.maxLength := by
  show (collapseWs (truncateToMax _ options.maxLength)).length ≤ options.maxLength
  exact le_trans (length_collapseWsAux false _) (length_truncateToMax _ _)

/-! ### Claim C7 -/

/-- **C7** (confirmed): for every string input and every options object, the
output of `sanitizeText` contains no literal `<` and no literal `>`, and its
length does not exceed `maxLength`. -/
theorem c7_sanitizeText_escapes_and_bounds (text : JStr) (options : SanOpts) :
    '<' ∉ sanitizeText text options ∧ '>' ∉ sanitizeText text options ∧
    (sanitizeText text options).length ≤ options.maxLength :=
  ⟨sanitizeText_no_lt text options, sanitizeText_no_gt text options,
    sanitizeText_length_le text options⟩

/-! ### Claim C9 -/

/-- **C9** (corrected), counterexample: `canAttempt()` does **not** leave the
recorded-attempt state unchanged — it prunes timestamps that have left the
window.  With `maxAttempts = 10`, `timeWindow = 100`, recorded attempts
`[0, 50]` and current time `120`, the call answers `true` but replaces the
attempt list by `[50]`. -/
theorem c9_counterexample :
    (RateLimiter.canAttempt ⟨10, 100, [0, 50]⟩ 120).1 = true ∧
    (RateLimiter.canAttempt ⟨10, 100, [0, 50]⟩ 120).2.attempts = [50] ∧
    (RateLimiter.canAttempt ⟨10, 100, [0, 50]⟩ 120).2 ≠ (⟨10, 100, [0, 50]⟩ : RateLimiter) := by
  decide

/-- **C9** (corrected), amended claim: `canAttempt()` returns `true` exactly
when fewer than `maxAttempts` recorded timestamps lie within the trailing
`timeWindow`; it prunes expired timestamps but preserves the set of in-window
timestamps, and `recordAttempt()` appends the current time. -/
theorem c9_amended_rate_limiter (rl : RateLimiter) (now : Int) :
    ((rl.canAttempt now).1 = true ↔
      (rl.attempts.filter (fun time => now - time < rl.timeWindow)).length < rl.maxAttempts) ∧
    ((rl.canAttempt now).2.attempts.filter (fun time => now - time < rl.timeWindow) =
      rl.attempts.filter (fun time => now - time < rl.timeWindow)) ∧
    (rl.recordAttempt now).attempts = rl.attempts ++ [now] := by
  refine ⟨by simp [RateLimiter.canAttempt], ?_, rfl⟩
  show (rl.attempts.filter _).filter _ = rl.attempts.filter _
  rw [List.filter_filter]
  simp

/-! ### Claim C10 -/

/-- **C10** (confirmed): `sanitizeText` double-escapes HTML-reserved
characters: the ampersand introduced by the angle-bracket replacement is
escaped again by the reserved-character pass, so `"<"` becomes `"&amp;lt;"`;
consequently `sanitizeText` is not idempotent, witnessed by `"&amp;"`. -/
theorem c10_sanitize_double_escape :
    sanitizeText "<".toList {} = "&amp;lt;".toList ∧
    sanitizeText (sanitizeText "&amp;".toList {}) {} ≠ sanitizeText "&amp;".toList {} := by
  exact ⟨by decide, by decide⟩

/-! ## Board generator (`src/utils/boardGenerator.js`)

A prompts catalog is the key-ordered association list underlying the JSON
object: category names paired with their prompt arrays (JavaScript objects
preserve key insertion order and have distinct keys). -/

abbrev Catalog := List (JStr × List JStr)

/-- A stream of random draws together with the position of the next draw.
`randBelow` models `Math.floor(Math.random() * n)`, whose value ranges
exactly over `[0, n-1]`. -/
structure Rng where
  g : Nat → Nat
  idx : Nat

/-- Draw the next random integer below `n`. -/
def randBelow (r : Rng) (n : Nat) : Nat × Rng :=
  (r.g r.idx % n, ⟨r.g, r.idx + 1⟩)

/-- One swap `[shuffled[i], shuffled[j]] = [shuffled[j], shuffled[i]]`.
Both indices are always in range at the call sites. -/
def swapAt (l : List JStr) (i j : Nat) : List JStr :=
  match l[i]?, l[j]? with
  | some a, some b => (l.set i b).set j a
  | _, _ => l

/-- The Fisher–Yates loop of `shuffleArray`: the fuel argument is the current
loop index `i`, counting down; at index `i ≥ 1` it swaps positions `i` and
`j = Math.floor(Math.random() * (i + 1))`. -/
def fisherAux : Rng → List JStr → Nat → List JStr × Rng
  | r, l, 0 => (l, r)
  | r, l, i + 1 =>
    let p := randBelow r (i + 2)
    fisherAux p.2 (swapAt l (i + 1) p.1) i

/-- `shuffleArray(array)`: Fisher–Yates on a copy, starting at `length - 1`. -/
def shuffleArray (r : Rng) (l : List JStr) : List JStr × Rng :=
  fisherAux r l (l.length - 1)

/-- The errors thrown by `boardGenerator.js`'s `validatePromptsData`.
The "must be an object" and "must be an array" failures cannot occur in this
typed model and are omitted. -/
inductive GenError where
  | noCategories
  | emptyCategory (name : JStr)
  | insufficientPrompts (total : Nat)
deriving DecidableEq

/-- `totalPrompts` as accumulated by `validatePromptsData`. -/
def totalPrompts (data : Catalog) : Nat :=
  (data.map (fun c => c.2.length)).sum

/-- `validatePromptsData(data)` of `boardGenerator.js`: at least one category,
no empty category (first offender reported), and at least 24 prompts in
total — regardless of the free-space flag. -/
def validatePromptsData (data : Catalog) : Except GenError Unit :=
  if data.length = 0 then .error .noCategories
  else
    match data.find? (fun c => c.2.isEmpty) with
    | some c => .error (.emptyCategory c.1)
    | none =>
      if totalPrompts data < 24 then .error (.insufficientPrompts (totalPrompts data))
      else .ok ()

/-- The `categories.forEach((category, index) => ...)` selection pass:
shuffle each category, take `promptsPerCategory` prompts (one more for the
first `remainderPrompts` categories), capped by the category's size. -/
def selectFromCategories : Catalog → Nat → Nat → Nat → Rng → List JStr × Rng
  | [], _, _, _, r => ([], r)
  | c :: rest, index, ppc, rem, r =>
    let s := shuffleArray r c.2
    let target := if index < rem then ppc + 1 else ppc
    let actual := min target s.1.length
    let next := selectFromCategories rest (index + 1) ppc rem s.2
    (s.1.take actual ++ next.1, next.2)

/-- The `while (selectedPrompts.length < totalTilesNeeded)` backfill loop,
with explicit fuel: pick a random category, collect its prompts not yet
selected (by value), and append a random one if any exists.  `none` means the
loop did not finish within `fuel` iterations. -/
def backfill (data : Catalog) (needed : Nat) :
    Nat → List JStr → Rng → Option (List JStr × Rng)
  | 0, sel, r => if sel.length < needed then none else some (sel, r)
  | fuel + 1, sel, r =>
    if sel.length < needed then
      let p := randBelow r data.length
      let cat := (data.getD p.1 ([], [])).2
      let available := cat.filter (fun q => decide (¬ q ∈ sel))
      if available.isEmpty then backfill data needed fuel sel p.2
      else
        let p2 := randBelow p.2 available.length
        backfill data needed fuel (sel ++ [available.getD p2.1 []]) p2.2
    else some (sel, r)

/-- The `'FREE_SPACE'` sentinel. -/
def freeSpaceMarker : JStr := "FREE_SPACE".toList

/-- The final placement loop: build the 25-tile array; with a free space,
index 12 holds the sentinel and `promptIndex` runs over the other cells. -/
def placeTiles (shuffled : List JStr) (includeFreeSpace : Bool) : List JStr :=
  if includeFreeSpace then
    (List.range 25).map (fun i =>
      if i = 12 then freeSpaceMarker
      else shuffled.getD (if i < 12 then i else i - 1) [])
  else
    (List.range 25).map (fun i => shuffled.getD i [])

/-- `generateBoard(prompts, includeFreeSpace)`.  The result is
`.error e` when validation throws, `.ok none` when the backfill loop has not
terminated within `fuel` iterations, and `.ok (some board)` otherwise. -/
def generateBoard (data : Catalog) (includeFreeSpace : Bool) (r : Rng) (fuel : Nat) :
    Except GenError (Option (List JStr)) :=
  match validatePromptsData data with
  | .error e => .error e
  | .ok _ =>
    let totalTilesNeeded := if includeFreeSpace then 24 else 25
    let sel := selectFromCategories data 0 (totalTilesNeeded / data.length)
      (totalTilesNeeded % data.length) r
    match backfill data totalTilesNeeded fuel sel.1 sel.2 with
    | none => .ok none
    | some sr =>
      let finalPrompts := sr.1.take totalTilesNeeded
      .ok (some (placeTiles (shuffleArray sr.2 finalPrompts).1 includeFreeSpace))

/-- The all-zero random stream (one concrete run of the generator). -/
def rng0 : Rng := ⟨fun _ => 0, 0⟩

/-- Extract the board from a `generateBoard` result (empty list otherwise). -/
def boardOf (e : Except GenError (Option (List JStr))) : List JStr :=
  match e with
  | .ok (some b) => b
  | _ => []

instance {ε α : Type} [DecidableEq ε] [DecidableEq α] : DecidableEq (Except ε α) := fun x y =>
  match x, y with
  | .ok a, .ok b =>
    if h : a = b then .isTrue (by rw [h]) else .isFalse (by intro hc; injection hc; contradiction)
  | .error a, .error b =>
    if h : a = b then .isTrue (by rw [h]) else .isFalse (by intro hc; injection hc; contradiction)
  | .ok _, .error _ => .isFalse (by intro hc; injection hc)
  | .error _, .ok _ => .isFalse (by intro hc; injection hc)

/-! ### Shuffle permutation lemmas -/

theorem set_cons_perm {α : Type} :
    ∀ {t : List α} {k : Nat} {b : α} (_ : t[k]? = some b) (a : α),
    (b :: t.set k a).Perm (a :: t) := by
  intro t
  induction t with
  | nil => intro k b h a; simp at h
  | cons c t ih =>
    intro k b h a
    cases k with
    | zero =>
      simp only [List.getElem?_cons_zero, Option.some.injEq] at h
      subst h
      simp only [List.set_cons_zero]
      exact List.Perm.swap a c t
    | succ k =>
      simp only [List.getElem?_cons_succ] at h
      simp only [List.set_cons_succ]
      refine List.Perm.trans (List.Perm.swap c b _) ?_
      refine List.Perm.trans ((ih h a).cons c) ?_
      exact List.Perm.swap a c t

theorem set_set_swap_perm {α : Type} :
    ∀ {l : List α} {i j : Nat} {a b : α},
    l[i]? = some a → l[j]? = some b → ((l.set i b).set j a).Perm l := by
  intro l
  induction l with
  | nil => intro i j a b ha _; simp at ha
  | cons c t ih =>
    intro i j a b ha hb
    cases i with
    | zero =>
      simp only [List.getElem?_cons_zero, Option.some.injEq] at ha
      subst ha
      cases j with
      | zero =>
        simp only [List.getElem?_cons_zero, Option.some.injEq] at hb
        subst hb
        simp
      | succ j =>
        simp only [List.getElem?_cons_succ] at hb
        simp only [List.set_cons_zero, List.set_cons_succ]
        exact set_cons_perm hb c
    | succ i =>
      simp only [List.getElem?_cons_succ] at ha
      cases j with
      | zero =>
        simp only [List.getElem?_cons_zero, Option.some.injEq] at hb
        subst hb
        simp only [List.set_cons_succ, List.set_cons_zero]
        exact set_cons_perm ha c
      | succ j =>
        simp only [List.getElem?_cons_succ] at hb
        simp only [List.set_cons_succ]
        exact (ih ha hb).cons c

theorem swapAt_perm (l : List JStr) (i j : Nat) : (swapAt l i j).Perm l := by
  unfold swapAt
  split
  next ha hb => exact set_set_swap_perm ha hb
  next => exact List.Perm.refl l

theorem fisherAux_perm : ∀ (i : Nat) (r : Rng) (l : List JStr),
    ((fisherAux r l i).1).Perm l := by
  intro i
  induction i with
  | zero => intro r l; exact List.Perm.refl l
  | succ i ih =>
    intro r l
    exact (ih _ _).trans (swapAt_perm l (i + 1) _)

theorem shuffleArray_perm (r : Rng) (l : List JStr) :
    ((shuffleArray r l).1).Perm l :=
  fisherAux_perm (l.length - 1) r l

theorem shuffleArray_length (r : Rng) (l : List JStr) :
    (shuffleArray r l).1.length = l.length :=
  (shuffleArray_perm r l).length_eq

theorem shuffleArray_mem {r : Rng} {l : List JStr} {x : JStr}
    (h : x ∈ (shuffleArray r l).1) : x ∈ l :=
  (shuffleArray_perm r l).subset h

theorem shuffleArray_nodup {r : Rng} {l : List JStr} (h : l.Nodup) :
    (shuffleArray r l).1.Nodup :=
  (shuffleArray_perm r l).nodup_iff.mpr h

/-! ### Selection and backfill lemmas -/

/-- All prompt values of the catalog, in category order. -/
def allPrompts (data : Catalog) : List JStr :=
  (data.map (fun c => c.2)).flatten

theorem allPrompts_cons (c : JStr × List JStr) (rest : Catalog) :
    allPrompts (c :: rest) = c.2 ++ allPrompts rest := by
  simp [allPrompts]

theorem mem_allPrompts_of_mem_cat {data : Catalog} {c : JStr × List JStr}
    (hc : c ∈ data) {x : JStr} (hx : x ∈ c.2) : x ∈ allPrompts data := by
  unfold allPrompts
  rw [List.mem_flatten]
  exact ⟨c.2, List.mem_map_of_mem _ hc, hx⟩

theorem mem_selectFromCategories {data : Catalog} :
    ∀ {i ppc rem : Nat} {r : Rng} {x : JStr},
    x ∈ (selectFromCategories data i ppc rem r).1 → x ∈ allPrompts data := by
  induction data with
  | nil => intro i ppc rem r x h; simp [selectFromCategories] at h
  | cons c rest ih =>
    intro i ppc rem r x h
    simp only [selectFromCategories] at h
    rw [allPrompts_cons]
    rcases List.mem_append.mp h with h1 | h1
    · exact List.mem_append_left _ (shuffleArray_mem (List.mem_of_mem_take h1))
    · exact List.mem_append_right _ (ih h1)

theorem nodup_selectFromCategories {data : Catalog} (hnd : (allPrompts data).Nodup) :
    ∀ {i ppc rem : Nat} {r : Rng}, (selectFromCategories data i ppc rem r).1.Nodup := by
  induction data with
  | nil => intro i ppc rem r; simp [selectFromCategories]
  | cons c rest ih =>
    intro i ppc rem r
    rw [allPrompts_cons, List.nodup_append] at hnd
    obtain ⟨hc, hrest, hdisj⟩ := hnd
    simp only [selectFromCategories]
    rw [List.nodup_append]
    refine ⟨?_, ih hrest, ?_⟩
    · exact List.Nodup.sublist (List.take_sublist _ _) (shuffleArray_nodup hc)
    · intro x hx hx2
      exact hdisj (shuffleArray_mem (List.mem_of_mem_take hx)) (mem_selectFromCategories hx2)

/-- The per-position target budget of the first pass, summed over the
remaining categories starting at position `i`. -/
def targetSum (ppc rem : Nat) : Nat → Nat → Nat
  | 0, _ => 0
  | n + 1, i => (if i < rem then ppc + 1 else ppc) + targetSum ppc rem n (i + 1)

theorem length_selectFromCategories_le (data : Catalog) :
    ∀ (i ppc rem : Nat) (r : Rng),
    (selectFromCategories data i ppc rem r).1.length ≤ targetSum ppc rem data.length i := by
  induction data with
  | nil => intro i ppc rem r; simp [selectFromCategories, targetSum]
  | cons c rest ih =>
    intro i ppc rem r
    simp only [selectFromCategories, targetSum, List.length_cons, List.length_append,
      List.length_take]
    have h1 := ih (i + 1) ppc rem (shuffleArray r c.2).2
    omega

theorem targetSum_of_rem_le (ppc rem : Nat) :
    ∀ (n i : Nat), rem ≤ i → targetSum ppc rem n i = ppc * n := by
  intro n
  induction n with
  | zero => intro i _; simp [targetSum]
  | succ n ih =>
    intro i h
    rw [targetSum, if_neg (by omega), ih (i + 1) (by omega), Nat.mul_succ]
    omega

theorem targetSum_le (ppc rem : Nat) :
    ∀ (n i : Nat), targetSum ppc rem n i ≤ ppc * n + (rem - i) := by
  intro n
  induction n with
  | zero => intro i; simp [targetSum]
  | succ n ih =>
    intro i
    rw [targetSum, Nat.mul_succ]
    by_cases h : i < rem
    · rw [if_pos h]
      have := ih (i + 1)
      omega
    · rw [if_neg h, targetSum_of_rem_le ppc rem n (i + 1) (by omega)]
      omega

/-- The first pass never selects more than `needed` prompts. -/
theorem length_select_le_needed (data : Catalog) (needed : Nat) (r : Rng) :
    (selectFromCategories data 0 (needed / data.length) (needed % data.length) r).1.length
      ≤ needed := by
  have h1 := length_selectFromCategories_le data 0 (needed / data.length)
    (needed % data.length) r
  have h2 := targetSum_le (needed / data.length) (needed % data.length) data.length 0
  have h3 := Nat.div_add_mod needed data.length
  rw [Nat.mul_comm] at h3
  omega

theorem backfill_some_length {data : Catalog} {needed : Nat} :
    ∀ {fuel : Nat} {sel : List JStr} {r : Rng} {sel' : List JStr} {r' : Rng},
    sel.length ≤ needed → backfill data needed fuel sel r = some (sel', r') →
    sel'.length = needed := by
  intro fuel
  induction fuel with
  | zero =>
    intro sel r sel' r' hle h
    unfold backfill at h
    split at h
    next => exact absurd h (by simp)
    next hge =>
      injection h with h1
      cases h1
      omega
  | succ fuel ih =>
    intro sel r sel' r' hle h
    simp only [backfill] at h
    split at h
    next hlt =>
      split at h
      · exact ih hle h
      · refine ih ?_ h
        simp only [List.length_append, List.length_singleton]
        omega
    next hlt =>
      injection h with h1
      cases h1
      omega

theorem mem_available {cat sel : List JStr} {n : Nat}
    (hne : cat.filter (fun q => decide (¬ q ∈ sel)) ≠ []) :
    (cat.filter (fun q => decide (¬ q ∈ sel))).getD
        (n % (cat.filter (fun q => decide (¬ q ∈ sel))).length) [] ∈ cat ∧
    (cat.filter (fun q => decide (¬ q ∈ sel))).getD
        (n % (cat.filter (fun q => decide (¬ q ∈ sel))).length) [] ∉ sel := by
  have hlen : 0 < (cat.filter (fun q => decide (¬ q ∈ sel))).length :=
    List.length_pos.mpr hne
  have hmod := Nat.mod_lt n hlen
  rw [List.getD_eq_getElem _ _ hmod]
  have hm := List.getElem_mem hmod
  refine ⟨List.mem_of_mem_filter hm, ?_⟩
  have hp := List.of_mem_filter hm
  simpa using hp

theorem getD_cat_cases (data : Catalog) (k : Nat) :
    (data.getD k (([], []) : JStr × List JStr)).2 = [] ∨
    data.getD k (([], []) : JStr × List JStr) ∈ data := by
  by_cases hk : k < data.length
  · right
    rw [List.getD_eq_getElem _ _ hk]
    exact List.getElem_mem hk
  · left
    rw [List.getD_eq_default _ _ (by omega)]

theorem backfill_some_mem {data : Catalog} {needed : Nat} :
    ∀ {fuel : Nat} {sel : List JStr} {r : Rng} {sel' : List JStr} {r' : Rng},
    backfill data needed fuel sel r = some (sel', r') →
    ∀ x ∈ sel', x ∈ sel ∨ x ∈ allPrompts data := by
  intro fuel
  induction fuel with
  | zero =>
    intro sel r sel' r' h x hx
    unfold backfill at h
    split at h
    next => exact absurd h (by simp)
    next =>
      injection h with h1
      cases h1
      exact Or.inl hx
  | succ fuel ih =>
    intro sel r sel' r' h x hx
    simp only [backfill, randBelow] at h
    split at h
    next hlt =>
      split at h
      next hemp => exact ih h x hx
      next hemp =>
        rw [List.isEmpty_iff] at hemp
        rcases ih h x hx with h1 | h1
        · rcases List.mem_append.mp h1 with h2 | h2
          · exact Or.inl h2
          · rw [List.mem_singleton] at h2
            subst h2
            rcases getD_cat_cases data (r.g r.idx % data.length) with hc | hc
            · rw [hc] at hemp
              simp at hemp
            · exact Or.inr (mem_allPrompts_of_mem_cat hc (mem_available hemp).1)
        · exact Or.inr h1
    next =>
      injection h with h1
      cases h1
      exact Or.inl hx

theorem backfill_some_nodup {data : Catalog} {needed : Nat} :
    ∀ {fuel : Nat} {sel : List JStr} {r : Rng} {sel' : List JStr} {r' : Rng},
    sel.Nodup → backfill data needed fuel sel r = some (sel', r') → sel'.Nodup := by
  intro fuel
  induction fuel with
  | zero =>
    intro sel r sel' r' hnd h
    unfold backfill at h
    split at h
    next => exact absurd h (by simp)
    next =>
      injection h with h1
      cases h1
      exact hnd
  | succ fuel ih =>
    intro sel r sel' r' hnd h
    simp only [backfill, randBelow] at h
    split at h
    next hlt =>
      split at h
      next hemp => exact ih hnd h
      next hemp =>
        rw [List.isEmpty_iff] at hemp
        refine ih ?_ h
        rw [List.nodup_append]
        refine ⟨hnd, List.nodup_singleton _, ?_⟩
        intro y hy hy2
        rw [List.mem_singleton] at hy2
        subst hy2
        exact (mem_available hemp).2 hy
    next =>
      injection h with h1
      cases h1
      exact hnd

/-! ### Placement lemmas -/

theorem placeTiles_length (s : List JStr) (fs : Bool) : (placeTiles s fs).length = 25 := by
  unfold placeTiles
  split <;> simp

theorem placeTiles_false_eq {s : List JStr} (h : s.length = 25) : placeTiles s false = s := by
  unfold placeTiles
  rw [if_neg (by simp)]
  refine List.ext_getElem (by simp [h]) ?_
  intro i h1 h2
  simp only [List.getElem_map, List.getElem_range]
  rw [List.getD_eq_getElem _ _ (by omega)]

theorem placeTiles_true_eq {s : List JStr} (h : s.length = 24) :
    placeTiles s true = s.take 12 ++ freeSpaceMarker :: s.drop 12 := by
  unfold placeTiles
  rw [if_pos rfl]
  have hlen : (s.take 12).length = 12 := by simp [h]
  refine List.ext_getElem (by simp [h]) ?_
  intro i h1 h2
  simp only [List.length_map, List.length_range] at h1
  simp only [List.getElem_map, List.getElem_range]
  rcases Nat.lt_trichotomy i 12 with hi | hi | hi
  · rw [if_neg (by omega), if_pos hi]
    rw [List.getElem_append_left (by omega)]
    rw [List.getElem_take]
    rw [List.getD_eq_getElem _ _ (by omega)]
  · subst hi
    rw [if_pos rfl]
    rw [List.getElem_append_right (by omega)]
    simp [hlen]
  · rw [if_neg (by omega), if_neg (by omega)]
    have hi1 : i - 1 < s.length := by omega
    rw [List.getD_eq_getElem _ _ hi1]
    rw [List.getElem_append_right (by omega)]
    have key : (freeSpaceMarker :: s.drop 12)[i - (s.take 12).length]? = some s[i - 1] := by
      rw [hlen]
      rw [show i - 12 = (i - 13) + 1 from by omega]
      rw [List.getElem?_cons_succ]
      rw [List.getElem?_drop]
      rw [show 12 + (i - 13) = i - 1 from by omega]
      exact List.getElem?_eq_getElem hi1
    have hbound : i - (s.take 12).length < (freeSpaceMarker :: s.drop 12).length := by
      simp only [hlen, List.length_cons, List.length_drop, h]
      omega
    have key2 := List.getElem?_eq_getElem hbound
    rw [key] at key2
    exact Option.some.inj key2

theorem placeTiles_getD_true {s : List JStr} {i : Nat} (hi : i < 25) :
    (placeTiles s true).getD i [] =
      if i = 12 then freeSpaceMarker else s.getD (if i < 12 then i else i - 1) [] := by
  have hlen := placeTiles_length s true
  rw [List.getD_eq_getElem _ _ (by omega)]
  unfold placeTiles
  simp [List.getElem_map, List.getElem_range, hi]

theorem placeTiles_getD_false {s : List JStr} {i : Nat} (hi : i < 25) :
    (placeTiles s false).getD i [] = s.getD i [] := by
  have hlen := placeTiles_length s false
  rw [List.getD_eq_getElem _ _ (by omega)]
  unfold placeTiles
  simp [List.getElem_map, List.getElem_range, hi]

theorem getD_mem_or_default (l : List JStr) (n : Nat) :
    l.getD n [] ∈ l ∨ l.getD n [] = [] := by
  by_cases hn : n < l.length
  · left
    rw [List.getD_eq_getElem _ _ hn]
    exact List.getElem_mem hn
  · right
    rw [List.getD_eq_default _ _ (by omega)]

/-- Unpacking a successful run of `generateBoard`: the board is the placement
of a final shuffled selection whose length is exactly the number of needed
tiles, whose members all come from the catalog, and which is duplicate-free
whenever the catalog's prompt values are. -/
theorem generateBoard_ok_struct {data : Catalog} {fs : Bool} {r : Rng} {fuel : Nat}
    {b : List JStr} (h : generateBoard data fs r fuel = .ok (some b)) :
    ∃ s : List JStr, b = placeTiles s fs ∧ s.length = (if fs = true then 24 else 25) ∧
      (∀ x ∈ s, x ∈ allPrompts data) ∧ ((allPrompts data).Nodup → s.Nodup) := by
  simp only [generateBoard] at h
  split at h
  next => exact absurd h (by simp)
  next =>
    split at h
    next => exact absurd h (by simp)
    next sr heq =>
      injection h with h1
      injection h1 with h2
      subst h2
      have hsel_le := length_select_le_needed data (if fs = true then 24 else 25) r
      have hlen := backfill_some_length hsel_le heq
      have htake : (sr.1.take (if fs = true then 24 else 25)).length
          = (if fs = true then 24 else 25) := by
        rw [List.length_take]
        omega
      refine ⟨_, rfl, ?_, ?_, ?_⟩
      · rw [shuffleArray_length]
        exact htake
      · intro x hx
        have hx1 := List.mem_of_mem_take (shuffleArray_mem hx)
        rcases backfill_some_mem heq x hx1 with h2 | h2
        · exact mem_selectFromCategories h2
        · exact h2
      · intro hnd
        refine shuffleArray_nodup ?_
        refine List.Nodup.sublist (List.take_sublist _ _) ?_
        exact backfill_some_nodup (nodup_selectFromCategories hnd) heq

/-! ### Concrete catalogs used by counterexamples and witnesses -/

/-- A short distinct prompt string `p<i>`. -/
def pStr (i : Nat) : JStr := 'p' :: Nat.toDigits 10 i

/-- `n` pairwise distinct prompts `p0 … p(n-1)`. -/
def numberedPrompts (n : Nat) : List JStr := (List.range n).map pStr

/-- One category of 24 distinct prompts — accepted by validation. -/
def catExactly24 : Catalog := [(['a'], numberedPrompts 24)]

/-- One category whose 24 prompts include the literal string `FREE_SPACE`. -/
def catSentinel : Catalog := [(['a'], freeSpaceMarker :: numberedPrompts 23)]

/-- One category of 24 prompts in which the value `"aaa"` occurs twice. -/
def catDupVal : Catalog := [(['a'], "aaa".toList :: "aaa".toList :: numberedPrompts 22)]

/-- Two categories, 24 prompts in total, but only two distinct values:
category `a` holds `"aaa"` 23 times and category `b` holds `"bbb"` once. -/
def catStarved : Catalog :=
  [(['a'], List.replicate 23 "aaa".toList), (['b'], ["bbb".toList])]

/-! ### Claim C1 -/

set_option maxRecDepth 8000 in
/-- **C1** (corrected), counterexample: for a validated catalog that contains
the literal string `FREE_SPACE` as a prompt, a returned board carries the
sentinel in **two** cells, not only at index 12 (here on the all-zero random
stream). -/
theorem c1_counterexample :
    validatePromptsData catSentinel = .ok () ∧
    (boardOf (generateBoard catSentinel true rng0 0)).length = 25 ∧
    (boardOf (generateBoard catSentinel true rng0 0)).count freeSpaceMarker = 2 := by
  refine ⟨by decide, by decide, by decide⟩

/-- **C1** (corrected), amended claim: whenever `generateBoard` returns a
board (the backfill loop finished within the fuel) **and no catalog prompt
equals the literal sentinel string**, the board has exactly 25 cells; with
free space the cell at index 12 and no other cell equals `FREE_SPACE`, and
without free space no cell equals `FREE_SPACE`. -/
theorem c1_amended_board_shape {data : Catalog} {fs : Bool} {r : Rng} {fuel : Nat}
    {b : List JStr} (hsent : freeSpaceMarker ∉ allPrompts data)
    (h : generateBoard data fs r fuel = .ok (some b)) :
    b.length = 25 ∧
    (fs = true → b.getD 12 [] = freeSpaceMarker ∧
      ∀ i, i < 25 → i ≠ 12 → b.getD i [] ≠ freeSpaceMarker) ∧
    (fs = false → ∀ i, i < 25 → b.getD i [] ≠ freeSpaceMarker) := by
  obtain ⟨s, rfl, hslen, hmem, _⟩ := generateBoard_ok_struct h
  have hcell : ∀ n : Nat, s.getD n [] ≠ freeSpaceMarker := by
    intro n he
    rcases getD_mem_or_default s n with hm | hd
    · exact hsent (he ▸ hmem _ hm)
    · rw [hd] at he
      exact absurd he (by decide)
  refine ⟨placeTiles_length s fs, ?_, ?_⟩
  · intro hfs
    subst hfs
    constructor
    · rw [placeTiles_getD_true (by omega)]
      simp
    · intro i hi h12
      rw [placeTiles_getD_true hi, if_neg h12]
      exact hcell _
  · intro hfs
    subst hfs
    intro i hi
    rw [placeTiles_getD_false hi]
    exact hcell _

set_option maxRecDepth 8000 in
/-- Witness for the amended C1 at a concrete sentinel-free catalog. -/
theorem c1_witness :
    freeSpaceMarker ∉ allPrompts catExactly24 ∧
    (boardOf (generateBoard catExactly24 true rng0 0)).length = 25 ∧
    (boardOf (generateBoard catExactly24 true rng0 0)).getD 12 [] = freeSpaceMarker := by
  have hsent : freeSpaceMarker ∉ allPrompts catExactly24 := by decide
  have h : generateBoard catExactly24 true rng0 0
      = .ok (some (boardOf (generateBoard catExactly24 true rng0 0))) := by decide
  have hmain := c1_amended_board_shape hsent h
  exact ⟨hsent, hmain.1, (hmain.2.1 rfl).1⟩

/-! ### Claim C2 -/

set_option maxRecDepth 8000 in
/-- **C2** (corrected), counterexample: the first selection pass does not
deduplicate by value — a category containing the same string twice can place
that string on two board cells.  On `catDupVal` (value `"aaa"` listed twice)
and the all-zero stream the returned board holds `"aaa"` in two cells. -/
theorem c2_counterexample :
    validatePromptsData catDupVal = .ok () ∧
    "aaa".toList ≠ freeSpaceMarker ∧
    (boardOf (generateBoard catDupVal true rng0 0)).count "aaa".toList = 2 := by
  refine ⟨by decide, by decide, by decide⟩

/-- **C2** (corrected), amended claim: provided the catalog's prompt values
are pairwise distinct (across the whole flattened catalog), no value other
than the sentinel occupies more than one cell of a returned board. -/
theorem count_beq_instances_eq (v : JStr) (l : List JStr) :
    l.count v = @List.count JStr (instBEqOfDecidableEq (α := JStr)) v l := by
  induction l with
  | nil => rfl
  | cons a t ih =>
    rw [List.count_cons, @List.count_cons _ (instBEqOfDecidableEq (α := JStr))]
    simp only [beq_iff_eq, ih]

theorem count_le_one_of_nodup {l : List JStr} (h : l.Nodup) (v : JStr) :
    l.count v ≤ 1 := by
  rw [count_beq_instances_eq]
  exact List.nodup_iff_count_le_one.mp h v

theorem c2_amended_no_duplicates {data : Catalog} {fs : Bool} {r : Rng} {fuel : Nat}
    {b : List JStr} (hnd : (allPrompts data).Nodup)
    (h : generateBoard data fs r fuel = .ok (some b)) :
    ∀ v : JStr, v ≠ freeSpaceMarker → b.count v ≤ 1 := by
  obtain ⟨s, rfl, hslen, _, hsnd⟩ := generateBoard_ok_struct h
  have hs := hsnd hnd
  intro v hv
  cases fs with
  | true =>
    rw [placeTiles_true_eq (by simpa using hslen)]
    rw [List.count_append, List.count_cons]
    have hsplit : s.count v = (s.take 12).count v + (s.drop 12).count v := by
      conv_lhs => rw [← List.take_append_drop 12 s]
      rw [List.count_append]
    have hle := count_le_one_of_nodup hs v
    simp only [beq_iff_eq]
    rw [if_neg (show ¬(freeSpaceMarker = v) from fun he => hv he.symm)]
    omega
  | false =>
    rw [placeTiles_false_eq (by simpa using hslen)]
    exact count_le_one_of_nodup hs v

set_option maxRecDepth 8000 in
/-- Witness for the amended C2 at a concrete duplicate-free catalog. -/
theorem c2_witness :
    (allPrompts catExactly24).Nodup ∧
    (boardOf (generateBoard catExactly24 true rng0 0)).count (pStr 0) ≤ 1 := by
  have hnd : (allPrompts catExactly24).Nodup := by decide
  have h : generateBoard catExactly24 true rng0 0
      = .ok (some (boardOf (generateBoard catExactly24 true rng0 0))) := by decide
  exact ⟨hnd, c2_amended_no_duplicates hnd h (pStr 0) (by decide)⟩

/-! ### Claim C4 -/

set_option maxRecDepth 8000 in
/-- **C4** (code bug): with free space disabled the board needs 25 prompts,
but `validatePromptsData` keeps the fixed floor of 24, so a 24-prompt catalog
is accepted (`.ok ()`), no insufficient-prompts error is ever raised, and the
generator's backfill loop cannot finish (fuel 0 shown here; `c3` proves the
loop never finishes for any fuel on a starved catalog). -/
theorem c4_validation_floor_gap :
    totalPrompts catExactly24 = 24 ∧
    validatePromptsData catExactly24 = .ok () ∧
    generateBoard catExactly24 false rng0 0 = .ok none := by
  refine ⟨by decide, by decide, by decide⟩

/-! ### Claim C3 -/

theorem shuffle_replicate (r : Rng) (n : Nat) (a : JStr) :
    (shuffleArray r (List.replicate n a)).1 = List.replicate n a :=
  List.perm_replicate.mp (shuffleArray_perm r _)

theorem catStarved_select (r : Rng) :
    (selectFromCategories catStarved 0 12 0 r).1
      = List.replicate 12 "aaa".toList ++ ["bbb".toList] := by
  have h2 : ∀ r2 : Rng, (shuffleArray r2 ["bbb".toList]).1 = ["bbb".toList] := fun _ => rfl
  simp only [catStarved, selectFromCategories]
  rw [shuffle_replicate, h2]
  simp [List.take_replicate]

/-- On `catStarved` the backfill loop is stuck: the twelve selected copies of
`"aaa"` and the selected `"bbb"` exhaust both categories' *values*, so every
iteration finds an empty `availablePrompts` list, never appends, and the loop
condition `13 < 24` never changes — for every random stream and every fuel. -/
theorem backfill_stuck_starved :
    ∀ (fuel : Nat) (r : Rng),
    backfill catStarved 24 fuel
      (List.replicate 12 "aaa".toList ++ ["bbb".toList]) r = none := by
  intro fuel
  induction fuel with
  | zero =>
    intro r
    unfold backfill
    rw [if_pos (by decide)]
  | succ fuel ih =>
    intro r
    simp only [backfill, randBelow]
    rw [if_pos (by decide)]
    have hmod : r.g r.idx % catStarved.length = 0 ∨ r.g r.idx % catStarved.length = 1 := by
      have h2 : r.g r.idx % catStarved.length < 2 := Nat.mod_lt _ (by decide)
      omega
    rcases hmod with h0 | h0 <;> rw [h0] <;> rw [if_pos (by decide)] <;> exact ih _

/-- **C3** (code bug): `generateBoard` does **not** always terminate on
catalogs accepted by its validation.  `catStarved` passes validation
(24 prompts in total), yet for every random stream and every iteration bound
the backfill loop never exits — there is no eligible prompt left and the loop
has no exit for that case — so the generator diverges instead of returning a
board. -/
theorem c3_backfill_divergence (g : Nat → Nat) (idx fuel : Nat) :
    validatePromptsData catStarved = .ok () ∧
    totalPrompts catStarved = 24 ∧
    generateBoard catStarved true ⟨g, idx⟩ fuel = .ok none := by
  refine ⟨by decide, by decide, ?_⟩
  have hv : validatePromptsData catStarved = .ok () := by decide
  simp only [generateBoard, hv, if_true]
  rw [show List.length catStarved = 2 from rfl]
  rw [show (24 : Nat) / 2 = 12 from rfl, show (24 : Nat) % 2 = 0 from rfl]
  rw [catStarved_select]
  rw [backfill_stuck_starved]

/-! ### Claim C5 -/

theorem select_parts {ppc rem : Nat} :
    ∀ (data : Catalog) (i : Nat) (r : Rng),
    (∀ c ∈ data, ppc + 1 ≤ c.2.length) →
    ∃ parts : List (List JStr),
      (selectFromCategories data i ppc rem r).1 = parts.flatten ∧
      parts.length = data.length ∧
      (∀ k, k < data.length →
        (parts.getD k []).length = if i + k < rem then ppc + 1 else ppc) ∧
      (∀ k, k < data.length → ∀ x ∈ parts.getD k [],
        x ∈ (data.getD k (([], []) : JStr × List JStr)).2) := by
  intro data
  induction data with
  | nil =>
    intro i r _
    refine ⟨[], by simp [selectFromCategories], rfl, ?_, ?_⟩ <;>
      (intro k hk; simp at hk)
  | cons c rest ih =>
    intro i r hmin
    obtain ⟨parts, hflat, hplen, hcount, hmem⟩ :=
      ih (i + 1) (shuffleArray r c.2).2 (fun d hd => hmin d (List.mem_cons_of_mem c hd))
    refine ⟨(shuffleArray r c.2).1.take
        (min (if i < rem then ppc + 1 else ppc) (shuffleArray r c.2).1.length) :: parts,
      ?_, ?_, ?_, ?_⟩
    · simp only [selectFromCategories, List.flatten_cons]
      rw [hflat]
    · simp [hplen]
    · intro k hk
      cases k with
      | zero =>
        simp only [List.getD_cons_zero, Nat.add_zero]
        have hlen := shuffleArray_length r c.2
        have hc : ppc + 1 ≤ c.2.length := hmin c (List.mem_cons_self c rest)
        rw [List.length_take, hlen]
        split <;> omega
      | succ k =>
        simp only [List.getD_cons_succ]
        rw [show i + (k + 1) = i + 1 + k from by omega]
        exact hcount k (by simpa using hk)
    · intro k hk
      cases k with
      | zero =>
        simp only [List.getD_cons_zero]
        intro x hx
        exact shuffleArray_mem (List.mem_of_mem_take hx)
      | succ k =>
        simp only [List.getD_cons_succ]
        exact hmem k (by simpa using hk)

/-- **C5** (confirmed): whenever every category holds at least
`floor(needed/N) + 1` prompts, the first pass contributes, per category in
insertion order, exactly `floor(needed/N) + 1` prompts for the first
`needed mod N` categories and exactly `floor(needed/N)` for the rest (with
`needed = 24` in free-space mode and `25` otherwise), each drawn from that
category — deterministic counts even though the drawn prompts are random. -/
theorem c5_first_pass_counts (data : Catalog) (fs : Bool) (r : Rng)
    (hmin : ∀ c ∈ data, (if fs = true then 24 else 25) / data.length + 1 ≤ c.2.length) :
    ∃ parts : List (List JStr),
      (selectFromCategories data 0 ((if fs = true then 24 else 25) / data.length)
          ((if fs = true then 24 else 25) % data.length) r).1 = parts.flatten ∧
      parts.length = data.length ∧
      (∀ k, k < data.length →
        (parts.getD k []).length =
          if k < (if fs = true then 24 else 25) % data.length
          then (if fs = true then 24 else 25) / data.length + 1
          else (if fs = true then 24 else 25) / data.length) ∧
      (∀ k, k < data.length → ∀ x ∈ parts.getD k [],
        x ∈ (data.getD k (([], []) : JStr × List JStr)).2) := by
  obtain ⟨parts, h1, h2, h3, h4⟩ := select_parts data 0 r hmin
  refine ⟨parts, h1, h2, ?_, h4⟩
  intro k hk
  rw [h3 k hk]
  simp

/-- Two categories of 13 prompts each: every category exceeds the
`24 / 2 + 1 = 13`-prompt floor of the C5 hypothesis. -/
def catBalanced : Catalog :=
  [(['a'], numberedPrompts 13), (['b'], (List.range 13).map (fun i => 'q' :: Nat.toDigits 10 i))]

set_option maxRecDepth 8000 in
/-- Witness for C5 at a concrete two-category catalog. -/
theorem c5_witness :
    ∃ parts : List (List JStr),
      (selectFromCategories catBalanced 0 ((if true = true then 24 else 25) / catBalanced.length)
          ((if true = true then 24 else 25) % catBalanced.length) rng0).1 = parts.flatten ∧
      parts.length = catBalanced.length ∧
      (∀ k, k < catBalanced.length →
        (parts.getD k []).length =
          if k < (if true = true then 24 else 25) % catBalanced.length
          then (if true = true then 24 else 25) / catBalanced.length + 1
          else (if true = true then 24 else 25) / catBalanced.length) ∧
      (∀ k, k < catBalanced.length → ∀ x ∈ parts.getD k [],
        x ∈ (catBalanced.getD k (([], []) : JStr × List JStr)).2) :=
  c5_first_pass_counts catBalanced true rng0 (by decide)

/-! ## Comprehensive validation (`validatePromptsStructure`) and the upload
pipeline (`handleFileUpload`) -/

/-- A raw JSON category value: an array of entries (`none` marks a non-string
entry) or a non-array value. -/
inductive JVal where
  | arr (ps : List (Option JStr))
  | other
deriving DecidableEq

/-- The raw parsed JSON object: keys (always strings) in insertion order. -/
abbrev RawCatalog := List (JStr × JVal)

inductive CatIssueKind where
  | emptyName
  | nameTooLong
  | notArray
  | emptyCategory
deriving DecidableEq

/-- A category-level issue descriptor (category name + kind). -/
structure CatIssue where
  category : JStr
  kind : CatIssueKind
deriving DecidableEq

inductive PromptIssueKind where
  | notString
  | emptyPrompt
  | tooShort
  | tooLong
deriving DecidableEq

/-- A prompt-level issue descriptor (category, index, kind). -/
structure PromptIssue where
  category : JStr
  index : Nat
  kind : PromptIssueKind
deriving DecidableEq

/-- The `ValidationError` codes thrown by `validatePromptsStructure`
(`INVALID_STRUCTURE` cannot occur in this typed model). -/
inductive VError where
  | noCategories
  | tooManyCategories (n : Nat)
  | categoryIssues (issues : List CatIssue)
  | promptIssues (issues : List PromptIssue) (totalIssues : Nat)
  | insufficientPrompts (total : Nat)
  | tooManyPrompts (total : Nat)
deriving DecidableEq

/-- The per-prompt checks of `validatePromptsStructure`, in code order:
non-string, whitespace-only, shorter than 3, longer than 200. -/
def promptIssueOf (category : JStr) (index : Nat) (p : Option JStr) : Option PromptIssue :=
  match p with
  | none => some ⟨category, index, .notString⟩
  | some s =>
    if jsTrim s = [] then some ⟨category, index, .emptyPrompt⟩
    else if s.length < 3 then some ⟨category, index, .tooShort⟩
    else if 200 < s.length then some ⟨category, index, .tooLong⟩
    else none

/-- One iteration of the `categories.forEach` scan: the category issues, the
prompt issues, and the contribution to `totalPrompts`.  An empty or
whitespace-only name, a non-array value, or an empty array make the scan
`return` early, skipping that category's prompts and prompt count; an overlong
name is recorded but does not stop the scan. -/
def scanCategory (category : JStr) (v : JVal) : List CatIssue × List PromptIssue × Nat :=
  if jsTrim category = [] then ([⟨category, .emptyName⟩], [], 0)
  else
    match v with
    | .other =>
      ((if 50 < category.length then [⟨category, CatIssueKind.nameTooLong⟩] else []) ++
        [⟨category, .notArray⟩], [], 0)
    | .arr ps =>
      if ps.length = 0 then
        ((if 50 < category.length then [⟨category, CatIssueKind.nameTooLong⟩] else []) ++
          [⟨category, .emptyCategory⟩], [], 0)
      else
        ((if 50 < category.length then [⟨category, CatIssueKind.nameTooLong⟩] else []),
          ps.enum.filterMap (fun ip => promptIssueOf category ip.1 ip.2), ps.length)

/-- All category issues collected over the whole scan. -/
def allCatIssues (data : RawCatalog) : List CatIssue :=
  (data.map (fun kv => (scanCategory kv.1 kv.2).1)).flatten

/-- All prompt issues collected over the whole scan. -/
def allPromptIssues (data : RawCatalog) : List PromptIssue :=
  (data.map (fun kv => (scanCategory kv.1 kv.2).2.1)).flatten

/-- `totalPrompts` as accumulated by the scan (defective categories excluded). -/
def scannedTotal (data : RawCatalog) : Nat :=
  (data.map (fun kv => (scanCategory kv.1 kv.2).2.2)).sum

/-- `validatePromptsStructure(data)`: cardinality checks, then the exhaustive
scan; category issues are thrown **in full**, prompt issues are capped to the
first 10 together with the total count, then the 24/1000 total bounds. -/
def validatePromptsStructure (data : RawCatalog) : Except VError Unit :=
  if data.length = 0 then .error .noCategories
  else if 50 < data.length then .error (.tooManyCategories data.length)
  else if allCatIssues data ≠ [] then .error (.categoryIssues (allCatIssues data))
  else if allPromptIssues data ≠ [] then
    .error (.promptIssues ((allPromptIssues data).take 10) (allPromptIssues data).length)
  else if scannedTotal data < 24 then .error (.insufficientPrompts (scannedTotal data))
  else if 1000 < scannedTotal data then .error (.tooManyPrompts (scannedTotal data))
  else .ok ()

/-- JavaScript object assignment `sanitizedData[sanitizedCategory] = …`:
replace in place when the key exists, append otherwise. -/
def upsert (acc : Catalog) (k : JStr) (v : List JStr) : Catalog :=
  if acc.any (fun c => decide (c.1 = k)) then
    acc.map (fun c => if c.1 = k then (k, v) else c)
  else acc ++ [(k, v)]

/-- One iteration of `sanitizePromptsData`'s `forEach`: sanitize the name,
keep the category only when the sanitized name is non-empty and the value is
an array, sanitize every prompt (non-strings sanitize to the empty string)
and drop prompts that are empty or shorter than 3 characters. -/
def sanitizeStep (acc : Catalog) (kv : JStr × JVal) : Catalog :=
  match kv.2 with
  | .arr ps =>
    if sanitizeCategoryName kv.1 = [] then acc
    else
      upsert acc (sanitizeCategoryName kv.1)
        ((ps.map (fun p => match p with | some s => sanitizePromptText s | none => [])).filter
          (fun q => decide (q ≠ []) && decide (3 ≤ q.length)))
  | .other => acc

/-- `sanitizePromptsData(data)`. -/
def sanitizePromptsData (data : RawCatalog) : Catalog :=
  data.foldl sanitizeStep []

/-- View a sanitized catalog as raw data again (all values are string
arrays), as `handleFileUpload` passes the sanitized object to validation. -/
def toRaw (data : Catalog) : RawCatalog :=
  data.map (fun kv => (kv.1, JVal.arr (kv.2.map some)))

inductive PipelineError where
  | vErr (e : VError)
  | gErr (e : GenError)
deriving DecidableEq

/-- The data path of `handleFileUpload` after parsing (steps 4, 5 and 7):
sanitize, validate the sanitized catalog, and only then generate the board.
The duplicate and imbalance checks of `validatePromptsData` produce warnings
only and cannot change the control flow, so they are omitted here. -/
def handleUploadCore (parsed : RawCatalog) (includeFreeSpace : Bool) (r : Rng) (fuel : Nat) :
    Except PipelineError (Option (List JStr)) :=
  match validatePromptsStructure (toRaw (sanitizePromptsData parsed)) with
  | .error e => .error (.vErr e)
  | .ok _ =>
    match generateBoard (sanitizePromptsData parsed) includeFreeSpace r fuel with
    | .error e => .error (.gErr e)
    | .ok b => .ok b

/-! ### Claim C8 -/

/-- Eleven distinctly named empty categories. -/
def rawElevenEmpty : RawCatalog :=
  (List.range 11).map (fun i => ('c' :: Nat.toDigits 10 i, JVal.arr []))

set_option maxRecDepth 8000 in
/-- **C8** (corrected), counterexample: the `CATEGORY_ISSUES` error is not
capped at 10 descriptors and carries no separate total count — with eleven
empty categories the thrown error carries all eleven issue descriptors. -/
theorem c8_counterexample :
    rawElevenEmpty.length = 11 ∧
    (allCatIssues rawElevenEmpty).length = 11 ∧
    validatePromptsStructure rawElevenEmpty
      = .error (.categoryIssues (allCatIssues rawElevenEmpty)) := by
  refine ⟨by decide, by decide, by decide⟩

/-- **C8** (corrected), amended claim: the scan collects issues across the
whole input before failing (every offending category contributes its
descriptor, shown here for empty names); the `PROMPT_ISSUES` error carries
exactly the first 10 collected prompt issues (hence at most 10) together with
the total count, while the `CATEGORY_ISSUES` error carries the **full** list
of collected category issues. -/
theorem c8_amended_issue_reporting (data : RawCatalog)
    (h1 : 1 ≤ data.length) (h50 : data.length ≤ 50) :
    (allCatIssues data ≠ [] →
      validatePromptsStructure data = .error (.categoryIssues (allCatIssues data))) ∧
    (allCatIssues data = [] → allPromptIssues data ≠ [] →
      validatePromptsStructure data
        = .error (.promptIssues ((allPromptIssues data).take 10)
            (allPromptIssues data).length) ∧
      ((allPromptIssues data).take 10).length ≤ 10) ∧
    (∀ kv ∈ data, jsTrim kv.1 = [] →
      (⟨kv.1, CatIssueKind.emptyName⟩ : CatIssue) ∈ allCatIssues data) := by
  refine ⟨?_, ?_, ?_⟩
  · intro hne
    unfold validatePromptsStructure
    rw [if_neg (by omega), if_neg (by omega), if_pos hne]
  · intro hceq hpne
    unfold validatePromptsStructure
    rw [if_neg (by omega), if_neg (by omega), if_neg (by simp [hceq]), if_pos hpne]
    refine ⟨rfl, ?_⟩
    rw [List.length_take]
    omega
  · intro kv hkv hname
    unfold allCatIssues
    rw [List.mem_flatten]
    refine ⟨(scanCategory kv.1 kv.2).1, List.mem_map_of_mem _ hkv, ?_⟩
    unfold scanCategory
    rw [if_pos hname]
    exact List.mem_singleton_self _

/-- One category with eleven too-short prompts. -/
def rawElevenShort : RawCatalog := [(['a'], JVal.arr (List.replicate 11 (some ['x'])))]

set_option maxRecDepth 8000 in
/-- Witness for the amended C8: with eleven prompt issues the thrown error
carries the first ten and the total count. -/
theorem c8_witness :
    (allPromptIssues rawElevenShort).length = 11 ∧
    validatePromptsStructure rawElevenShort
      = .error (.promptIssues ((allPromptIssues rawElevenShort).take 10)
          (allPromptIssues rawElevenShort).length) := by
  have h := c8_amended_issue_reporting rawElevenShort (by decide) (by decide)
  exact ⟨by decide, (h.2.1 (by decide) (by decide)).1⟩

/-! ### Claim C6 -/

/-- The properties every entry of a sanitized catalog provably has: its name
is non-empty with at most 50 characters, and every kept prompt has between 3
and 200 characters and is not whitespace-only. -/
def goodEntry (kv : JStr × List JStr) : Prop :=
  kv.1.length ≤ 50 ∧ kv.1 ≠ [] ∧
  ∀ p ∈ kv.2, 3 ≤ p.length ∧ p.length ≤ 200 ∧ jsTrim p ≠ []

theorem upsert_preserves {acc : Catalog} {k : JStr} {v : List JStr}
    (P : JStr × List JStr → Prop)
    (hacc : ∀ kv ∈ acc, P kv) (hkv : P (k, v)) :
    ∀ kv ∈ upsert acc k v, P kv := by
  intro kv hm
  unfold upsert at hm
  split at hm
  · rcases List.mem_map.mp hm with ⟨c, hc, heq⟩
    by_cases hck : c.1 = k
    · rw [if_pos hck] at heq
      exact heq ▸ hkv
    · rw [if_neg hck] at heq
      exact heq ▸ hacc c hc
  · rcases List.mem_append.mp hm with h1 | h1
    · exact hacc kv h1
    · rw [List.mem_singleton] at h1
      exact h1 ▸ hkv

theorem inserted_value_good (name : JStr) (ps : List (Option JStr))
    (hne : sanitizeCategoryName name ≠ []) :
    goodEntry (sanitizeCategoryName name,
      (ps.map (fun p => match p with | some s => sanitizePromptText s | none => [])).filter
        (fun q => decide (q ≠ []) && decide (3 ≤ q.length))) := by
  refine ⟨sanitizeText_length_le name _, hne, ?_⟩
  intro p hp
  rcases List.mem_filter.mp hp with ⟨hpm, hcond⟩
  simp only [Bool.and_eq_true, decide_eq_true_eq] at hcond
  obtain ⟨hne2, h3⟩ := hcond
  rcases List.mem_map.mp hpm with ⟨op, _, heq⟩
  cases op with
  | none =>
    have heq2 : ([] : JStr) = p := heq
    exact absurd heq2.symm hne2
  | some s =>
    have heq2 : sanitizePromptText s = p := heq
    refine ⟨h3, ?_, ?_⟩
    · rw [← heq2]
      exact sanitizeText_length_le s _
    · rw [← heq2]
      refine jsTrim_sanitizeText_ne_nil ?_
      show 3 ≤ (sanitizePromptText s).length
      rw [heq2]
      exact h3

theorem sanitizeStep_preserves {acc : Catalog} {kv : JStr × JVal}
    (h : ∀ e ∈ acc, goodEntry e) : ∀ e ∈ sanitizeStep acc kv, goodEntry e := by
  rcases kv with ⟨name, v⟩
  cases v with
  | other => exact h
  | arr ps =>
    simp only [sanitizeStep]
    split
    · exact h
    next hne => exact upsert_preserves goodEntry h (inserted_value_good name ps hne)

theorem sanitizePromptsData_good (parsed : RawCatalog) :
    ∀ kv ∈ sanitizePromptsData parsed, goodEntry kv := by
  suffices hgen : ∀ (l : RawCatalog) (acc : Catalog), (∀ e ∈ acc, goodEntry e) →
      ∀ e ∈ l.foldl sanitizeStep acc, goodEntry e by
    exact hgen parsed [] (by simp)
  intro l
  induction l with
  | nil => intro acc h; simpa using h
  | cons kv rest ih =>
    intro acc h
    simp only [List.foldl_cons]
    exact ih _ (sanitizeStep_preserves h)

theorem scanCategory_arr {name : JStr} (ps : List (Option JStr))
    (hname : jsTrim name ≠ []) :
    scanCategory name (JVal.arr ps) =
      if ps.length = 0 then
        ((if 50 < name.length then [⟨name, CatIssueKind.nameTooLong⟩] else []) ++
          [⟨name, CatIssueKind.emptyCategory⟩], [], 0)
      else
        ((if 50 < name.length then [⟨name, CatIssueKind.nameTooLong⟩] else []),
          ps.enum.filterMap (fun ip => promptIssueOf name ip.1 ip.2), ps.length) := by
  unfold scanCategory
  rw [if_neg hname]

theorem promptIssueOf_some (name : JStr) (i : Nat) (s : JStr) :
    promptIssueOf name i (some s) =
      if jsTrim s = [] then some ⟨name, i, .emptyPrompt⟩
      else if s.length < 3 then some ⟨name, i, .tooShort⟩
      else if 200 < s.length then some ⟨name, i, .tooLong⟩
      else none := rfl

/-- A category that passes all scan checks contributes no issue and exactly
its prompt count. -/
theorem scanCategory_good {name : JStr} {ps : List JStr}
    (hname : jsTrim name ≠ []) (hlen : name.length ≤ 50) (hne : ps ≠ [])
    (hp : ∀ p ∈ ps, 3 ≤ p.length ∧ p.length ≤ 200 ∧ jsTrim p ≠ []) :
    scanCategory name (JVal.arr (ps.map some)) = ([], [], ps.length) := by
  rw [scanCategory_arr _ hname]
  have hfm : (ps.map some).enum.filterMap (fun ip => promptIssueOf name ip.1 ip.2) = [] := by
    rw [List.filterMap_eq_nil_iff]
    intro ip hip
    have h2 := List.snd_mem_of_mem_enum hip
    rcases List.mem_map.mp h2 with ⟨s, hs, heq⟩
    obtain ⟨h3, h200, htr⟩ := hp s hs
    rw [← heq, promptIssueOf_some]
    rw [if_neg htr, if_neg (by omega), if_neg (by omega)]
  rw [if_neg (by simpa using hne)]
  rw [if_neg (by omega), hfm, List.length_map]

theorem validateStructure_of_sanitized {san : Catalog}
    (hne : san ≠ []) (h50 : san.length ≤ 50)
    (hcat : ∀ kv ∈ san, kv.2 ≠ [] ∧ jsTrim kv.1 ≠ [])
    (hgood : ∀ kv ∈ san, goodEntry kv)
    (hlow : totalPrompts san < 24) :
    validatePromptsStructure (toRaw san)
      = .error (.insufficientPrompts (totalPrompts san)) := by
  have hscan : ∀ kv ∈ san,
      scanCategory kv.1 (JVal.arr (kv.2.map some)) = ([], [], kv.2.length) := by
    intro kv hkv
    exact scanCategory_good (hcat kv hkv).2 (hgood kv hkv).1 (hcat kv hkv).1
      (fun p hp => (hgood kv hkv).2.2 p hp)
  have hci : allCatIssues (toRaw san) = [] := by
    unfold allCatIssues toRaw
    rw [List.map_map, List.flatten_eq_nil_iff]
    intro l hl
    rcases List.mem_map.mp hl with ⟨kv, hkv, heq⟩
    rw [← heq]
    simp only [Function.comp_apply]
    rw [hscan kv hkv]
  have hpi : allPromptIssues (toRaw san) = [] := by
    unfold allPromptIssues toRaw
    rw [List.map_map, List.flatten_eq_nil_iff]
    intro l hl
    rcases List.mem_map.mp hl with ⟨kv, hkv, heq⟩
    rw [← heq]
    simp only [Function.comp_apply]
    rw [hscan kv hkv]
  have htot : scannedTotal (toRaw san) = totalPrompts san := by
    unfold scannedTotal toRaw totalPrompts
    rw [List.map_map]
    congr 1
    refine List.map_congr_left ?_
    intro kv hkv
    simp only [Function.comp_apply]
    rw [hscan kv hkv]
  have hlen : (toRaw san).length = san.length := by simp [toRaw]
  unfold validatePromptsStructure
  rw [hlen]
  rw [if_neg (by simp [hne]), if_neg (by omega), if_neg (by simp [hci]),
    if_neg (by simp [hpi]), htot, if_pos hlow]

/-- A distinct prompt string `pr<i>` long enough to survive sanitization. -/
def prStr (i : Nat) : JStr := 'p' :: 'r' :: Nat.toDigits 10 i

/-- A raw upload whose category `a` keeps no prompt after sanitization (its
only prompt is 2 characters long) and whose category `b` keeps 20. -/
def rawDropped : RawCatalog :=
  [(['a'], JVal.arr [some ['a', 'b']]),
   (['b'], JVal.arr ((List.range 20).map (fun i => some (prStr i))))]

set_option maxRecDepth 8000 in
/-- **C6** (corrected), counterexample: when sanitization empties a category,
the re-validation of the sanitized catalog throws `CATEGORY_ISSUES`, not the
insufficient-prompts error, even though the sanitized total (20) is below the
24-prompt floor. -/
theorem c6_counterexample :
    totalPrompts (sanitizePromptsData rawDropped) = 20 ∧
    handleUploadCore rawDropped true rng0 0
      = .error (.vErr (.categoryIssues [⟨['a'], CatIssueKind.emptyCategory⟩])) := by
  refine ⟨by decide, by decide⟩

/-- **C6** (corrected), amended claim: the total-prompt-count check runs on
the **sanitized** catalog, and whenever the sanitized catalog is still
structurally acceptable (non-empty, at most 50 categories, no emptied
category, no whitespace-only category name) but its total prompt count is
below 24, the upload pipeline raises exactly the insufficient-prompts
validation error, computed on the sanitized total, and `generateBoard` is
never invoked; when sanitization additionally broke the structure, a
category-level error is raised instead — in either case before generation. -/
theorem c6_amended_sanitized_revalidation (parsed : RawCatalog) (fs : Bool) (r : Rng)
    (fuel : Nat)
    (hne : sanitizePromptsData parsed ≠ [])
    (h50 : (sanitizePromptsData parsed).length ≤ 50)
    (hcat : ∀ kv ∈ sanitizePromptsData parsed, kv.2 ≠ [] ∧ jsTrim kv.1 ≠ [])
    (hlow : totalPrompts (sanitizePromptsData parsed) < 24) :
    handleUploadCore parsed fs r fuel
      = .error (.vErr (.insufficientPrompts (totalPrompts (sanitizePromptsData parsed)))) := by
  have hv := validateStructure_of_sanitized hne h50 hcat
    (sanitizePromptsData_good parsed) hlow
  unfold handleUploadCore
  rw [hv]

/-- A raw upload that sanitizes to a clean catalog of two prompts in total. -/
def rawSmall : RawCatalog := [(['a'], JVal.arr [some "abc".toList, some "abd".toList])]

set_option maxRecDepth 8000 in
/-- Witness for the amended C6: the clean two-prompt upload is rejected with
`INSUFFICIENT_PROMPTS (2)` computed after sanitization. -/
theorem c6_witness :
    handleUploadCore rawSmall true rng0 0
      = .error (.vErr (.insufficientPrompts 2)) := by
  have h := c6_amended_sanitized_revalidation rawSmall true rng0 0
    (by decide) (by decide) (by decide) (by decide)
  have ht : totalPrompts (sanitizePromptsData rawSmall) = 2 := by decide
  rw [ht] at h
  exact h
